import Mathlib

/-!
Verification of the decision logic of an automated options-trading script
(src/main.py): dynamic universe selection, ATM call/put contract selection,
order sizing and same-day deduplication, stop-loss risk management, the
retry wrapper with exponential backoff, and the market-open gate.

Prices are modelled as rationals, volumes as naturals, dates as integer
day counts. Python's `int()` truncation is `pyTrunc`, Python's falsy-based
`or` fallback on optional prices is `pyOr`, Python's stable `sorted` with
`reverse=True` is the stable insertion sort `sortVolDesc`, and Python's
`min(xs, key=f)` (first minimum wins) is `minAux`.
-/

namespace OptionsTrader

/-! ### Configuration constants (src/main.py lines 31-43) -/

def RISK_PER_TRADE : ℚ := 2 / 100

def STOP_LOSS_PCT : ℚ := 35 / 100

def TOP_N_STOCKS : ℕ := 10

def MIN_PRICE : ℚ := 3

def MAX_PRICE : ℚ := 50

def MIN_VOLUME : ℕ := 1000000

def MIN_OPTION_VOLUME : ℕ := 50

def MIN_OPTION_PRICE : ℚ := 1 / 2

def MIN_DAYS_TO_EXPIRY : ℤ := 3

def MAX_RETRIES : ℕ := 3

def INITIAL_RETRY_SLEEP : ℕ := 3

/-! ### Python-semantics helpers -/

/-- Python `int()` applied to a rational: truncation toward zero. -/
def pyTrunc (q : ℚ) : ℤ := if q < 0 then -((-q).floor) else q.floor

/-- Python `a or b` on optional numbers: `b` when `a` is falsy (absent or zero). -/
def pyOr (a b : Option ℚ) : Option ℚ :=
  match a with
  | some x => if x = 0 then b else some x
  | none => b

/-- Whether `needle` is an initial segment of `hay`. -/
def leadsWith : List Char → List Char → Bool
  | [], _ => true
  | _ :: _, [] => false
  | a :: as, b :: bs => a = b && leadsWith as bs

/-- Whether `needle` occurs contiguously inside `hay`. -/
def hasSub (needle : List Char) : List Char → Bool
  | [] => leadsWith needle []
  | c :: rest => leadsWith needle (c :: rest) || hasSub needle rest

/-- Python `needle in hay` on strings: substring test. -/
def strContains (hay needle : String) : Bool := hasSub needle.toList hay.toList

/-- ASCII lowercase of one character (Python `str.lower` on the ASCII type
tags used by the brokerage). -/
def lowerChar (ch : Char) : Char :=
  if 65 ≤ ch.toNat ∧ ch.toNat ≤ 90 then Char.ofNat (ch.toNat + 32) else ch

/-- ASCII lowercase of a string. -/
def strLower (s : String) : String := String.mk (s.toList.map lowerChar)

/-! ### Universe selection (src/main.py `get_universe`, lines 158-203) -/

/-- The most recent daily bar of an equity: last close, last volume, and the
age of the bar in whole days (Python `(datetime.now() - last_bar_time).days`). -/
structure DailyBar where
  close : ℚ
  volume : ℕ
  ageDays : ℕ
deriving DecidableEq

/-- An equity candidate: ticker symbol and its most recent daily bar, absent
when the bar fetch returned nothing. -/
structure EquityCand where
  sym : String
  bar : Option DailyBar
deriving DecidableEq

/-- The per-candidate filter of `get_universe`: a bar must exist, be at most
3 days old, have close in `[MIN_PRICE, MAX_PRICE]` and volume `>= MIN_VOLUME`. -/
def passesFilter (c : EquityCand) : Bool :=
  match c.bar with
  | none => false
  | some b =>
    decide (¬ 3 < b.ageDays) &&
    (decide (MIN_PRICE ≤ b.close) && decide (b.close ≤ MAX_PRICE) &&
     decide (MIN_VOLUME ≤ b.volume))

/-- The volume used for ranking (the last bar volume; 0 when no bar). -/
def candVol (c : EquityCand) : ℕ :=
  match c.bar with
  | some b => b.volume
  | none => 0

/-- Stable descending insertion: place `c` before the first element of
no-greater volume, so earlier-listed candidates stay ahead on ties. -/
def insertVolDesc (c : EquityCand) : List EquityCand → List EquityCand
  | [] => [c]
  | d :: ds => if candVol d ≤ candVol c then c :: d :: ds else d :: insertVolDesc c ds

/-- Stable sort by volume descending, modelling Python's stable
`sorted(candidates, key=lambda x: x[1], reverse=True)`. -/
def sortVolDesc : List EquityCand → List EquityCand
  | [] => []
  | c :: cs => insertVolDesc c (sortVolDesc cs)

/-- Candidates surviving the price/volume/staleness filter. -/
def surviving (cands : List EquityCand) : List EquityCand := cands.filter passesFilter

/-- The ranked, truncated universe as candidates. -/
def universeCands (cands : List EquityCand) : List EquityCand :=
  (sortVolDesc (surviving cands)).take TOP_N_STOCKS

/-- `get_universe`: filter, rank by volume descending, keep the top
`TOP_N_STOCKS`, return the ticker symbols. -/
def get_universe (cands : List EquityCand) : List String :=
  (universeCands cands).map EquityCand.sym

/-! ### ATM option selection (src/main.py `choose_atm_call_put`, lines 208-259) -/

/-- An option contract as read from the brokerage: days to expiry (absent when
the expiration field is missing or unparseable), traded volume (absent maps to
0 in the code), the three price fields tried in order, the option type string,
and the strike. -/
structure OptionContract where
  daysToExpiry : Option ℤ
  volume : Option ℕ
  lastTradePrice : Option ℚ
  askPrice : Option ℚ
  lastPrice : Option ℚ
  optionType : String
  strike : ℚ
deriving DecidableEq

/-- The quoted price of a contract: Python
`last_trade_price or ask_price or last_price` (falsy chaining). -/
def quotedOf (c : OptionContract) : Option ℚ :=
  pyOr (pyOr c.lastTradePrice c.askPrice) c.lastPrice

/-- The per-contract filter of `choose_atm_call_put`: parseable expiry at
least `MIN_DAYS_TO_EXPIRY` days ahead, a usable quoted price
`>= MIN_OPTION_PRICE`, and volume `>= MIN_OPTION_VOLUME`. -/
def qualifies (c : OptionContract) : Bool :=
  match c.daysToExpiry with
  | none => false
  | some d =>
    decide (¬ d < MIN_DAYS_TO_EXPIRY) &&
    (match quotedOf c with
     | none => false
     | some p =>
       decide (¬ p < MIN_OPTION_PRICE) && decide (¬ (c.volume.getD 0) < MIN_OPTION_VOLUME))

/-- Contracts surviving the expiry/price/volume filter. -/
def validContracts (l : List OptionContract) : List OptionContract := l.filter qualifies

/-- Qualifying contracts whose recorded type is (case-insensitively) a call. -/
def callsOf (l : List OptionContract) : List OptionContract :=
  (validContracts l).filter (fun c => strLower c.optionType = "call")

/-- Qualifying contracts whose recorded type is (case-insensitively) a put. -/
def putsOf (l : List OptionContract) : List OptionContract :=
  (validContracts l).filter (fun c => strLower c.optionType = "put")

/-- Absolute strike distance to the reference price. -/
def strikeDist (price : ℚ) (c : OptionContract) : ℚ := |c.strike - price|

/-- Python `min(b :: l, key=f)`: fold keeping the incumbent unless a later
element is strictly smaller, so the first minimum wins. -/
def minAux {α : Type} (f : α → ℚ) : α → List α → α
  | b, [] => b
  | b, a :: as => minAux f (if f a < f b then a else b) as

/-- Python `min(l, key=f)` as a total function on lists (absent on empty). -/
def minFirst {α : Type} (f : α → ℚ) : List α → Option α
  | [] => none
  | a :: as => some (minAux f a as)

/-- Specification of ATM selection within one group `g`: `a` achieves the
minimum strike distance to the reference price over `g`, and every element
listed before `a` in `g` has a strictly larger distance (first minimum wins). -/
def FirstMinAt (price : ℚ) (g : List OptionContract) (a : OptionContract) : Prop :=
  (∀ x ∈ g, strikeDist price a ≤ strikeDist price x) ∧
  ∃ l1 l2, g = l1 ++ a :: l2 ∧ ∀ x ∈ l1, strikeDist price a < strikeDist price x

/-- `choose_atm_call_put`: given the fetched contract list and the underlying's
latest close (absent when bars were unavailable), return the ATM call, ATM put
and reference price, any of which may be absent. -/
def choose_atm_call_put (contracts : List OptionContract) (close : Option ℚ) :
    Option OptionContract × Option OptionContract × Option ℚ :=
  if contracts.isEmpty then (none, none, none)
  else
    match close with
    | none => (none, none, none)
    | some price =>
      if (validContracts contracts).isEmpty then (none, none, some price)
      else if (callsOf contracts).isEmpty || (putsOf contracts).isEmpty then
        (none, none, some price)
      else
        (minFirst (strikeDist price) (callsOf contracts),
         minFirst (strikeDist price) (putsOf contracts), some price)

/-- Eleven candidates that all pass the universe filter, with strictly
decreasing volumes; exhibits the `TOP_N_STOCKS` truncation. -/
def elevenCands : List EquityCand :=
  [⟨"S00", some ⟨10, 1000010, 0⟩⟩, ⟨"S01", some ⟨10, 1000009, 0⟩⟩,
   ⟨"S02", some ⟨10, 1000008, 0⟩⟩, ⟨"S03", some ⟨10, 1000007, 0⟩⟩,
   ⟨"S04", some ⟨10, 1000006, 0⟩⟩, ⟨"S05", some ⟨10, 1000005, 0⟩⟩,
   ⟨"S06", some ⟨10, 1000004, 0⟩⟩, ⟨"S07", some ⟨10, 1000003, 0⟩⟩,
   ⟨"S08", some ⟨10, 1000002, 0⟩⟩, ⟨"S09", some ⟨10, 1000001, 0⟩⟩,
   ⟨"S10", some ⟨10, 1000000, 0⟩⟩]

/-! ### Order submission and the trade cycle (src/main.py `trade_logic`, lines 264-330) -/

/-- An order as handed to `api.submit_order`. -/
structure TradeOrder where
  osym : String
  qty : ℤ
  side : String
  otype : String
  tif : String
deriving DecidableEq

/-- Result of one buy attempt: the submitted order (if any), whether an
order-error message was sent to the notifier, and the updated
purchased-options set. -/
structure SubmitRes where
  order : Option TradeOrder
  errNotified : Bool
  state : Finset String
deriving DecidableEq

/-- One buy block of `trade_logic` (lines 302-313 for the call, 315-326 for
the put): compute the quantity from `max_invest` and the quoted price, and
submit a market day buy when the quantity is at least 1, the contract symbol
is present and not yet in the purchased set. `ok` is whether the brokerage
accepts the order; on failure the error is notified and the set unchanged. -/
def buyStep (mi price : ℚ) (csym : Option String) (purchased : Finset String)
    (ok : Bool) : SubmitRes :=
  let q : ℤ := if 0 < price then pyTrunc (mi / (price * 100)) else 0
  match csym with
  | none => ⟨none, false, purchased⟩
  | some s =>
    if 1 ≤ q ∧ s ∉ purchased then
      if ok then ⟨some ⟨s, q, "buy", "market", "day"⟩, false, insert s purchased⟩
      else ⟨none, true, purchased⟩
    else ⟨none, false, purchased⟩

/-- Inputs for one underlying inside the `trade_logic` loop: the resolved
call/put quoted prices, the two contract symbols, and whether the brokerage
accepts each submission. -/
structure UnderlyingInput where
  callPrice : ℚ
  putPrice : ℚ
  callSym : Option String
  putSym : Option String
  callOk : Bool
  putOk : Bool
deriving DecidableEq

/-- The body of the `trade_logic` per-symbol loop (lines 291-326): if either
quoted price is not positive the whole symbol is skipped (`continue`);
otherwise the call buy block runs, then the put buy block against the
call-updated set. -/
def trade_symbol_step (mi : ℚ) (u : UnderlyingInput) (st : Finset String) :
    SubmitRes × SubmitRes :=
  if u.callPrice ≤ 0 ∨ u.putPrice ≤ 0 then (⟨none, false, st⟩, ⟨none, false, st⟩)
  else
    let r1 := buyStep mi u.callPrice u.callSym st u.callOk
    let r2 := buyStep mi u.putPrice u.putSym r1.state u.putOk
    (r1, r2)

/-- The `trade_logic` loop over the selected universe, threading the
purchased-options set. -/
def trade_cycle (mi : ℚ) : List UnderlyingInput → Finset String →
    List (SubmitRes × SubmitRes) × Finset String
  | [], st => ([], st)
  | u :: us, st =>
    let r := trade_symbol_step mi u st
    let rest := trade_cycle mi us r.2.state
    (r :: rest.1, rest.2)

/-- `trade_logic` top gate (lines 266-268): when the market is closed the
cycle is skipped entirely, submitting nothing and leaving the set unchanged. -/
def trade_logic (marketOpen : Bool) (mi : ℚ) (us : List UnderlyingInput)
    (st : Finset String) : List (SubmitRes × SubmitRes) × Finset String :=
  if marketOpen then trade_cycle mi us st else ([], st)

/-- `reset_daily_state` (lines 366-380): the purchased-options set is replaced
by the empty set. -/
def reset_daily_state (_st : Finset String) : Finset String := ∅

/-! ### Risk management (src/main.py `manage_risk`, lines 335-361) -/

/-- An open brokerage position. -/
structure Position where
  psym : String
  pqty : ℚ
  avg_entry_price : ℚ
  current_price : ℚ
  asset_class : String
deriving DecidableEq

/-- The per-position body of `manage_risk` (lines 347-358): skip non-option
positions; sell the full absolute held quantity at market, day time-in-force,
exactly when `current_price < entry_price * (1 - STOP_LOSS_PCT)`. -/
def manage_risk_position (pos : Position) : Option TradeOrder :=
  if pos.asset_class ≠ "option" then none
  else if pos.current_price < pos.avg_entry_price * (1 - STOP_LOSS_PCT) then
    some ⟨pos.psym, pyTrunc |pos.pqty|, "sell", "market", "day"⟩
  else none

/-- `manage_risk` with its market-open gate (lines 337-339): no sells at all
when the market is closed. -/
def manage_risk (marketOpen : Bool) (positions : List Position) : List TradeOrder :=
  if marketOpen then positions.filterMap manage_risk_position else []

/-! ### Retry wrapper (src/main.py `safe_api_call`, lines 96-113) -/

/-- The attempt loop of `safe_api_call`, by remaining retries after the
current attempt. `op n` is the outcome of the n-th invocation. Returns the
final outcome, the number of invocations made, and the list of sleep
durations performed (in order). On the last attempt a failure is re-raised
with no sleep; otherwise the loop sleeps the current duration and doubles it. -/
def safeAux {α : Type} (op : ℕ → Except String α) (attempt sleep : ℕ) :
    ℕ → Except String α × ℕ × List ℕ
  | 0 => (op attempt, 1, [])
  | r + 1 =>
    match op attempt with
    | .ok v => (.ok v, 1, [])
    | .error _ =>
      let rest := safeAux op (attempt + 1) (sleep * 2) r
      (rest.1, rest.2.1 + 1, sleep :: rest.2.2)

/-- `safe_api_call`: up to `maxRetries` total attempts starting at attempt 1
with initial sleep `initialSleep`. -/
def safe_api_call {α : Type} (op : ℕ → Except String α) (maxRetries initialSleep : ℕ) :
    Except String α × ℕ × List ℕ :=
  safeAux op 1 initialSleep (maxRetries - 1)

/-! ### Market clock gate (src/main.py `is_market_open`, lines 118-128) -/

/-- `is_market_open`: first component is the returned boolean, second is
whether a critical alert was sent to the notifier. On a persistent failure
the function returns false, and alerts only when the error text contains
"401". -/
def is_market_open (clockRes : Except String Bool) : Bool × Bool :=
  match clockRes with
  | .ok b => (b, false)
  | .error msg => (false, strContains msg "401")

/-! ## Theorems -/

/-! ### Lemmas on the stable descending sort -/

theorem mem_insertVolDesc (a c : EquityCand) (l : List EquityCand) :
    a ∈ insertVolDesc c l ↔ a = c ∨ a ∈ l := by
  induction l with
  | nil => simp [insertVolDesc]
  | cons d ds ih =>
    simp only [insertVolDesc]
    split
    · simp [List.mem_cons]
    · simp only [List.mem_cons, ih]
      tauto

theorem mem_sortVolDesc (a : EquityCand) (l : List EquityCand) :
    a ∈ sortVolDesc l ↔ a ∈ l := by
  induction l with
  | nil => simp [sortVolDesc]
  | cons c cs ih => simp [sortVolDesc, mem_insertVolDesc, ih]

theorem length_insertVolDesc (c : EquityCand) (l : List EquityCand) :
    (insertVolDesc c l).length = l.length + 1 := by
  induction l with
  | nil => simp [insertVolDesc]
  | cons d ds ih =>
    simp only [insertVolDesc]
    split
    · simp
    · simp [ih]

theorem length_sortVolDesc (l : List EquityCand) :
    (sortVolDesc l).length = l.length := by
  induction l with
  | nil => rfl
  | cons c cs ih => simp [sortVolDesc, length_insertVolDesc, ih]

theorem pairwise_insertVolDesc (c : EquityCand) (l : List EquityCand)
    (h : l.Pairwise (fun a b => candVol b ≤ candVol a)) :
    (insertVolDesc c l).Pairwise (fun a b => candVol b ≤ candVol a) := by
  induction l with
  | nil => simp [insertVolDesc]
  | cons d ds ih =>
    simp only [insertVolDesc]
    rcases List.pairwise_cons.mp h with ⟨hd, hds⟩
    split
    · rename_i hcd
      refine List.pairwise_cons.mpr ⟨?_, h⟩
      intro b hb
      rcases List.mem_cons.mp hb with rfl | hb
      · exact hcd
      · exact le_trans (hd b hb) hcd
    · rename_i hcd
      refine List.pairwise_cons.mpr ⟨?_, ih hds⟩
      intro b hb
      rcases (mem_insertVolDesc b c ds).mp hb with rfl | hb
      · exact le_of_lt (lt_of_not_le hcd)
      · exact hd b hb

theorem pairwise_sortVolDesc (l : List EquityCand) :
    (sortVolDesc l).Pairwise (fun a b => candVol b ≤ candVol a) := by
  induction l with
  | nil => simp [sortVolDesc]
  | cons c cs ih => exact pairwise_insertVolDesc c _ ih

theorem filter_insertVolDesc (c : EquityCand) (l : List EquityCand) (v : ℕ) :
    (insertVolDesc c l).filter (fun a => candVol a == v) =
      if candVol c == v then c :: l.filter (fun a => candVol a == v)
      else l.filter (fun a => candVol a == v) := by
  induction l with
  | nil =>
    cases hc : (candVol c == v) <;> simp [insertVolDesc, List.filter_cons, hc]
  | cons d ds ih =>
    simp only [insertVolDesc]
    split
    · rename_i hcd
      cases hc : (candVol c == v) <;> simp [List.filter_cons, hc]
    · rename_i hcd
      have hlt : candVol c < candVol d := lt_of_not_le hcd
      cases hc : (candVol c == v)
      · simp [List.filter_cons, ih, hc]
      · have hcv : candVol c = v := by simpa using hc
        have hdv : (candVol d == v) = false := beq_eq_false_iff_ne.mpr (by omega)
        simp [List.filter_cons, hdv, ih, hc]

theorem filter_sortVolDesc (l : List EquityCand) (v : ℕ) :
    (sortVolDesc l).filter (fun a => candVol a == v) =
      l.filter (fun a => candVol a == v) := by
  induction l with
  | nil => rfl
  | cons c cs ih =>
    simp only [sortVolDesc, filter_insertVolDesc, ih]
    by_cases hc : candVol c == v
    · simp [List.filter_cons, hc]
    · simp [List.filter_cons, hc]

/-! ### Claim C1 -/

/-- Claim C1 (amended): every symbol of the returned universe comes from a
candidate passing the price/volume/staleness filter; the universe holds at
most `TOP_N_STOCKS` symbols; the ranked candidates are ordered by volume
descending; ties keep the original candidate order (restricting the ranked
list to any fixed volume reproduces the survivors of that volume in input
order); and whenever at most `TOP_N_STOCKS` candidates survive the filter, a
symbol appears in the universe if and only if some surviving candidate
carries it. -/
theorem C1_get_universe_amended (cands : List EquityCand) :
    (∀ s ∈ get_universe cands, ∃ c, c ∈ cands ∧ passesFilter c = true ∧ c.sym = s) ∧
    (get_universe cands).length ≤ TOP_N_STOCKS ∧
    (universeCands cands).Pairwise (fun a b => candVol b ≤ candVol a) ∧
    (∀ v : ℕ, (sortVolDesc (surviving cands)).filter (fun a => candVol a == v) =
      (surviving cands).filter (fun a => candVol a == v)) ∧
    ((surviving cands).length ≤ TOP_N_STOCKS →
      ∀ s, s ∈ get_universe cands ↔
        ∃ c, c ∈ cands ∧ passesFilter c = true ∧ c.sym = s) := by
  refine ⟨?_, ?_, ?_, ?_, ?_⟩
  · intro s hs
    rcases List.mem_map.mp hs with ⟨c, hc, rfl⟩
    have hc2 : c ∈ sortVolDesc (surviving cands) :=
      (List.take_sublist _ _).mem hc
    have hc3 : c ∈ surviving cands := (mem_sortVolDesc c _).mp hc2
    rcases List.mem_filter.mp hc3 with ⟨hmem, hpass⟩
    exact ⟨c, hmem, hpass, rfl⟩
  · simp only [get_universe, universeCands, List.length_map]
    exact (List.length_take _ _).trans_le (min_le_left _ _)
  · exact (pairwise_sortVolDesc _).sublist (List.take_sublist _ _)
  · exact filter_sortVolDesc _
  · intro hlen s
    have hfull : (sortVolDesc (surviving cands)).take TOP_N_STOCKS =
        sortVolDesc (surviving cands) :=
      List.take_of_length_le (by rw [length_sortVolDesc]; exact hlen)
    simp only [get_universe, universeCands, hfull, List.mem_map]
    constructor
    · rintro ⟨c, hc, rfl⟩
      have hc3 : c ∈ surviving cands := (mem_sortVolDesc c _).mp hc
      rcases List.mem_filter.mp hc3 with ⟨hmem, hpass⟩
      exact ⟨c, hmem, hpass, rfl⟩
    · rintro ⟨c, hmem, hpass, rfl⟩
      exact ⟨c, (mem_sortVolDesc c _).mpr (List.mem_filter.mpr ⟨hmem, hpass⟩), rfl⟩

/-- Claim C1 witness: the membership equivalence, instantiated on a concrete
two-candidate list that survives without truncation. -/
theorem C1_get_universe_amended_witness :
    ("B" ∈ get_universe [⟨"A", some ⟨10, 5, 0⟩⟩, ⟨"B", some ⟨10, 2000000, 0⟩⟩] ↔
      ∃ c, c ∈ [(⟨"A", some ⟨10, 5, 0⟩⟩ : EquityCand), ⟨"B", some ⟨10, 2000000, 0⟩⟩] ∧
        passesFilter c = true ∧ c.sym = "B") :=
  (C1_get_universe_amended _).2.2.2.2 (by decide) "B"

/-- Claim C1 counterexample: with eleven surviving candidates, the
lowest-volume one passes the filter and is in the input, yet its symbol is
not in the returned universe — the membership "if and only if" of the claim
fails as stated once more than `TOP_N_STOCKS` candidates survive. -/
theorem C1_get_universe_iff_cex :
    passesFilter ⟨"S10", some ⟨10, 1000000, 0⟩⟩ = true ∧
    (⟨"S10", some ⟨10, 1000000, 0⟩⟩ : EquityCand) ∈ elevenCands ∧
    "S10" ∉ get_universe elevenCands := by decide

/-! ### Lemmas on the first-minimum fold -/

theorem minAux_spec {α : Type} (f : α → ℚ) (b : α) (l : List α) :
    (minAux f b l = b ∧ ∀ x ∈ l, f b ≤ f x) ∨
    ∃ l1 a l2, l = l1 ++ a :: l2 ∧ minAux f b l = a ∧ f a < f b ∧
      (∀ x ∈ l1, f a < f x) ∧ ∀ x ∈ l2, f a ≤ f x := by
  induction l generalizing b with
  | nil => exact Or.inl ⟨rfl, by simp⟩
  | cons a as ih =>
    simp only [minAux]
    by_cases h : f a < f b
    · rw [if_pos h]
      rcases ih a with ⟨heq, hall⟩ | ⟨l1, c, l2, hsplit, heq, hlt, hbefore, hafter⟩
      · exact Or.inr ⟨[], a, as, by simp, heq, h, by simp, hall⟩
      · refine Or.inr ⟨a :: l1, c, l2, by simp [hsplit], heq, lt_trans hlt h, ?_, hafter⟩
        intro x hx
        rcases List.mem_cons.mp hx with rfl | hx
        · exact hlt
        · exact hbefore x hx
    · rw [if_neg h]
      have hba : f b ≤ f a := le_of_not_lt h
      rcases ih b with ⟨heq, hall⟩ | ⟨l1, c, l2, hsplit, heq, hlt, hbefore, hafter⟩
      · refine Or.inl ⟨heq, ?_⟩
        intro x hx
        rcases List.mem_cons.mp hx with rfl | hx
        · exact hba
        · exact hall x hx
      · refine Or.inr ⟨a :: l1, c, l2, by simp [hsplit], heq, hlt, ?_, hafter⟩
        intro x hx
        rcases List.mem_cons.mp hx with rfl | hx
        · exact lt_of_lt_of_le hlt hba
        · exact hbefore x hx

theorem minAux_first_min {α : Type} (f : α → ℚ) (c : α) (cs : List α) :
    (∀ x ∈ c :: cs, f (minAux f c cs) ≤ f x) ∧
    ∃ l1 l2, c :: cs = l1 ++ minAux f c cs :: l2 ∧
      ∀ x ∈ l1, f (minAux f c cs) < f x := by
  rcases minAux_spec f c cs with ⟨heq, hall⟩ | ⟨l1, a, l2, hsplit, heq, hlt, hbefore, hafter⟩
  · rw [heq]
    refine ⟨?_, [], cs, rfl, by simp⟩
    intro x hx
    rcases List.mem_cons.mp hx with rfl | hx
    · exact le_refl _
    · exact hall x hx
  · rw [heq]
    constructor
    · intro x hx
      rcases List.mem_cons.mp hx with rfl | hx
      · exact le_of_lt hlt
      · rw [hsplit] at hx
        rcases List.mem_append.mp hx with hx | hx
        · exact le_of_lt (hbefore x hx)
        · rcases List.mem_cons.mp hx with rfl | hx
          · exact le_refl _
          · exact hafter x hx
    · refine ⟨c :: l1, l2, by simp [hsplit], ?_⟩
      intro x hx
      rcases List.mem_cons.mp hx with rfl | hx
      · exact hlt
      · exact hbefore x hx

theorem minFirst_spec (price : ℚ) (g : List OptionContract) (hg : g ≠ []) :
    ∃ a, minFirst (strikeDist price) g = some a ∧ FirstMinAt price g a := by
  match g, hg with
  | c :: cs, _ =>
    exact ⟨minAux (strikeDist price) c cs, rfl, minAux_first_min (strikeDist price) c cs⟩

/-! ### Claim C2 -/

/-- Claim C2: when at least one qualifying call and one qualifying put exist,
`choose_atm_call_put` returns exactly one call and one put, each achieving
the minimum absolute strike distance to the reference price over the
qualifying contracts of its type, with the first-listed contract winning
ties, and the reference price is returned; and when the qualifying contracts
of some type are absent (on a nonempty fetched contract list), both option
slots are absent while the reference price is still returned. -/
theorem C2_choose_atm_call_put (contracts : List OptionContract) (price : ℚ) :
    (callsOf contracts ≠ [] → putsOf contracts ≠ [] →
      ∃ ac ap, choose_atm_call_put contracts (some price) = (some ac, some ap, some price) ∧
        FirstMinAt price (callsOf contracts) ac ∧ FirstMinAt price (putsOf contracts) ap) ∧
    (contracts ≠ [] → (callsOf contracts = [] ∨ putsOf contracts = []) →
      choose_atm_call_put contracts (some price) = (none, none, some price)) := by
  constructor
  · intro hcne hpne
    rcases minFirst_spec price (callsOf contracts) hcne with ⟨ac, hac, hacm⟩
    rcases minFirst_spec price (putsOf contracts) hpne with ⟨ap, hap, hapm⟩
    have hvne : validContracts contracts ≠ [] := by
      intro hv
      apply hcne
      simp [callsOf, hv]
    have hne : contracts ≠ [] := by
      intro hv
      apply hvne
      simp [validContracts, hv]
    refine ⟨ac, ap, ?_, hacm, hapm⟩
    simp only [choose_atm_call_put, List.isEmpty_eq_false.mpr hne,
      List.isEmpty_eq_false.mpr hvne, List.isEmpty_eq_false.mpr hcne,
      List.isEmpty_eq_false.mpr hpne, Bool.or_self, Bool.false_eq_true,
      Bool.false_or, if_false, hac, hap]
  · intro hne hor
    have hie : contracts.isEmpty = false := List.isEmpty_eq_false.mpr hne
    by_cases hv : validContracts contracts = []
    · simp [choose_atm_call_put, hie, hv]
    · have hcp : ((callsOf contracts).isEmpty || (putsOf contracts).isEmpty) = true := by
        rcases hor with h | h <;> simp [h]
      simp [choose_atm_call_put, hie, hv, hcp]

/-- Claim C2 witness: one qualifying call (strike 98) and one qualifying put
(strike 99) against reference price 100. -/
theorem C2_choose_atm_call_put_witness :
    ∃ ac ap,
      choose_atm_call_put
        [⟨some 10, some 100, some 2, none, none, "call", 98⟩,
         ⟨some 10, some 100, some 2, none, none, "put", 99⟩] (some 100) =
        (some ac, some ap, some 100) ∧
      FirstMinAt 100
        (callsOf [⟨some 10, some 100, some 2, none, none, "call", 98⟩,
          ⟨some 10, some 100, some 2, none, none, "put", 99⟩]) ac ∧
      FirstMinAt 100
        (putsOf [⟨some 10, some 100, some 2, none, none, "call", 98⟩,
          ⟨some 10, some 100, some 2, none, none, "put", 99⟩]) ap :=
  (C2_choose_atm_call_put _ 100).1 (by with_unfolding_all decide)
    (by with_unfolding_all decide)

/-! ### Claim C10 -/

/-- Claim C10: `choose_atm_call_put` returns the call slot filled exactly
when the put slot is filled — never exactly one of the two. -/
theorem C10_both_or_neither (contracts : List OptionContract) (close : Option ℚ) :
    ((choose_atm_call_put contracts close).1).isSome =
      ((choose_atm_call_put contracts close).2.1).isSome := by
  rcases close with _ | price
  · simp [choose_atm_call_put]
  · by_cases hne : contracts = []
    · simp [choose_atm_call_put, hne]
    · have hie : contracts.isEmpty = false := List.isEmpty_eq_false.mpr hne
      by_cases hv : validContracts contracts = []
      · simp [choose_atm_call_put, hie, hv]
      · by_cases hc : callsOf contracts = []
        · simp [choose_atm_call_put, hie, hv, hc]
        · by_cases hp : putsOf contracts = []
          · simp [choose_atm_call_put, hie, hv, hp]
          · rcases minFirst_spec price (callsOf contracts) hc with ⟨ac, hac, _⟩
            rcases minFirst_spec price (putsOf contracts) hp with ⟨ap, hap, _⟩
            simp [choose_atm_call_put, hie, hv, hc, hp,
              List.isEmpty_eq_false.mpr hc, List.isEmpty_eq_false.mpr hp,
              hac, hap]

/-! ### Lemmas on the order-submission step -/

theorem pyTrunc_eq_floor (q : ℚ) (h : 0 ≤ q) : pyTrunc q = q.floor := by
  rw [pyTrunc, if_neg (not_lt.mpr h)]

theorem buyStep_subset (mi p : ℚ) (c : Option String) (st : Finset String) (ok : Bool) :
    st ⊆ (buyStep mi p c st ok).state := by
  rcases c with _ | s
  · simp [buyStep]
  · simp only [buyStep]
    split_ifs <;>
      first
        | exact Finset.subset_insert _ _
        | exact Finset.Subset.refl _

theorem trade_symbol_step_subset (mi : ℚ) (u : UnderlyingInput) (st : Finset String) :
    st ⊆ (trade_symbol_step mi u st).2.state := by
  rw [trade_symbol_step]
  split
  · exact Finset.Subset.refl _
  · exact (buyStep_subset mi u.callPrice u.callSym st u.callOk).trans
      (buyStep_subset _ _ _ _ _)

theorem trade_cycle_subset (mi : ℚ) (us : List UnderlyingInput) (st : Finset String) :
    st ⊆ (trade_cycle mi us st).2 := by
  induction us generalizing st with
  | nil => exact Finset.Subset.refl _
  | cons u us ih =>
    exact (trade_symbol_step_subset mi u st).trans (ih _)

/-! ### Claim C3 -/

/-- Claim C3: with `max_invest = account_cash * RISK_PER_TRADE` for a cycle
with positive cash and positive quoted prices, any submitted order carries
quantity `floor(max_invest / (quoted_price * 100))`, and a floor of 0 means
no order is submitted for that contract. -/
theorem C3_quantity_floor (cash : ℚ) (u : UnderlyingInput) (st : Finset String)
    (hcash : 0 < cash) (hcp : 0 < u.callPrice) (hpp : 0 < u.putPrice) :
    (∀ o, (trade_symbol_step (cash * RISK_PER_TRADE) u st).1.order = some o →
      o.qty = (cash * RISK_PER_TRADE / (u.callPrice * 100)).floor) ∧
    (∀ o, (trade_symbol_step (cash * RISK_PER_TRADE) u st).2.order = some o →
      o.qty = (cash * RISK_PER_TRADE / (u.putPrice * 100)).floor) ∧
    ((cash * RISK_PER_TRADE / (u.callPrice * 100)).floor = 0 →
      (trade_symbol_step (cash * RISK_PER_TRADE) u st).1.order = none) ∧
    ((cash * RISK_PER_TRADE / (u.putPrice * 100)).floor = 0 →
      (trade_symbol_step (cash * RISK_PER_TRADE) u st).2.order = none) := by
  have hmi : 0 ≤ cash * RISK_PER_TRADE := by
    have : (0:ℚ) < RISK_PER_TRADE := by norm_num [RISK_PER_TRADE]
    positivity
  have harg : ∀ p : ℚ, 0 < p → 0 ≤ cash * RISK_PER_TRADE / (p * 100) := by
    intro p hp
    positivity
  have key : ∀ (p : ℚ) (c : Option String) (st2 : Finset String) (ok : Bool), 0 < p →
      (∀ o, (buyStep (cash * RISK_PER_TRADE) p c st2 ok).order = some o →
        o.qty = (cash * RISK_PER_TRADE / (p * 100)).floor) ∧
      ((cash * RISK_PER_TRADE / (p * 100)).floor = 0 →
        (buyStep (cash * RISK_PER_TRADE) p c st2 ok).order = none) := by
    intro p c st2 ok hp
    have hq : pyTrunc (cash * RISK_PER_TRADE / (p * 100)) =
        (cash * RISK_PER_TRADE / (p * 100)).floor := pyTrunc_eq_floor _ (harg p hp)
    rcases c with _ | s
    · exact ⟨by simp [buyStep], by simp [buyStep]⟩
    · constructor
      · intro o ho
        simp only [buyStep, if_pos hp] at ho
        split at ho
        · split at ho
          · cases ho
            exact hq
          · cases ho
        · cases ho
      · intro h0
        simp only [buyStep, if_pos hp, hq]
        rw [if_neg]
        rintro ⟨h1, -⟩
        rw [h0] at h1
        exact absurd h1 (by norm_num)
  rw [trade_symbol_step]
  have hno : ¬(u.callPrice ≤ 0 ∨ u.putPrice ≤ 0) := by
    push_neg
    exact ⟨hcp, hpp⟩
  rw [if_neg hno]
  exact ⟨(key u.callPrice u.callSym st u.callOk hcp).1,
    (key u.putPrice u.putSym _ u.putOk hpp).1,
    (key u.callPrice u.callSym st u.callOk hcp).2,
    (key u.putPrice u.putSym _ u.putOk hpp).2⟩

/-- Claim C3 witness: end-to-end scenario C of the spec — cash 10000 gives
`max_invest = 200`; a call quoted at 1.50 yields quantity 1, a put quoted at
3.00 yields floor 0 and no order. -/
theorem C3_quantity_floor_witness :
    ((200:ℚ) = 10000 * RISK_PER_TRADE) ∧
    ((10000 * RISK_PER_TRADE / ((3:ℚ)/2 * 100)).floor = 1) ∧
    ((10000 * RISK_PER_TRADE / ((3:ℚ) * 100)).floor = 0 →
      (trade_symbol_step (10000 * RISK_PER_TRADE)
        ⟨3/2, 3, some "C", some "P", true, true⟩ ∅).2.order = none) :=
  ⟨by norm_num [RISK_PER_TRADE], by with_unfolding_all decide,
   (C3_quantity_floor 10000 ⟨3/2, 3, some "C", some "P", true, true⟩ ∅
      (by norm_num) (by norm_num) (by norm_num)).2.2.2⟩

/-! ### Claim C5 -/

/-- Claim C5: with a fresh symbol, a positive price and quantity at least 1,
a first successful submission submits and adds the symbol to the
purchased-options set; running the same submission step again is a no-op
(no order, set unchanged); after `reset_daily_state` the same symbol is
bought again; and no step ever removes a symbol from the set (the set only
grows across submission steps and whole trade cycles). -/
theorem C5_same_day_idempotence (mi price : ℚ) (s : String) (st : Finset String)
    (ok2 : Bool) (hp : 0 < price) (hq : 1 ≤ pyTrunc (mi / (price * 100)))
    (hs : s ∉ st) :
    (buyStep mi price (some s) st true).order.isSome = true ∧
    (buyStep mi price (some s) st true).state = insert s st ∧
    (buyStep mi price (some s) (buyStep mi price (some s) st true).state ok2).order
      = none ∧
    (buyStep mi price (some s) (buyStep mi price (some s) st true).state ok2).state
      = (buyStep mi price (some s) st true).state ∧
    reset_daily_state (buyStep mi price (some s) st true).state = ∅ ∧
    (buyStep mi price (some s)
      (reset_daily_state (buyStep mi price (some s) st true).state) true).order.isSome
      = true ∧
    (∀ (st2 : Finset String) (c : Option String) (p : ℚ) (ok : Bool),
      st2 ⊆ (buyStep mi p c st2 ok).state) ∧
    (∀ (us : List UnderlyingInput) (st2 : Finset String),
      st2 ⊆ (trade_cycle mi us st2).2) := by
  have h1 : buyStep mi price (some s) st true =
      ⟨some ⟨s, pyTrunc (mi / (price * 100)), "buy", "market", "day"⟩, false,
        insert s st⟩ := by
    simp only [buyStep, if_pos hp]
    rw [if_pos ⟨hq, hs⟩, if_pos trivial]
  have h2 : buyStep mi price (some s) (insert s st) ok2 =
      ⟨none, false, insert s st⟩ := by
    simp only [buyStep, if_pos hp]
    rw [if_neg]
    rintro ⟨-, habs⟩
    exact habs (Finset.mem_insert_self s st)
  have h3 : buyStep mi price (some s) (∅ : Finset String) true =
      ⟨some ⟨s, pyTrunc (mi / (price * 100)), "buy", "market", "day"⟩, false,
        insert s ∅⟩ := by
    simp only [buyStep, if_pos hp]
    rw [if_pos ⟨hq, Finset.not_mem_empty s⟩, if_pos trivial]
  refine ⟨by rw [h1]; rfl, by rw [h1], ?_, ?_, rfl, ?_, ?_, ?_⟩
  · rw [h1, h2]
  · rw [h1, h2]
  · rw [h1]
    show (buyStep mi price (some s) (∅ : Finset String) true).order.isSome = true
    rw [h3]
    rfl
  · intro st2 c p ok
    exact buyStep_subset mi p c st2 ok
  · intro us st2
    exact trade_cycle_subset mi us st2

/-- Claim C5 witness: symbol "OPT" at price 1.50 with `max_invest` 200,
starting from the empty purchased set. -/
theorem C5_same_day_idempotence_witness :
    (buyStep 200 (3/2) (some "OPT") ∅ true).order.isSome = true ∧
    (buyStep 200 (3/2) (some "OPT") (buyStep 200 (3/2) (some "OPT") ∅ true).state
      true).order = none :=
  ⟨(C5_same_day_idempotence 200 (3/2) "OPT" ∅ true (by norm_num)
      (by with_unfolding_all decide) (by simp)).1,
   (C5_same_day_idempotence 200 (3/2) "OPT" ∅ true (by norm_num)
      (by with_unfolding_all decide) (by simp)).2.2.1⟩

/-! ### Claim C6 -/

/-- Claim C6: when the brokerage rejects the call submission, no order is
recorded, the symbol is not added to the purchased set (state unchanged),
the failure is reported through the notifier, the put step of the same
underlying proceeds against the unchanged set, and the trade cycle
continues with the remaining symbols. -/
theorem C6_submit_failure (mi cp pp : ℚ) (cs ps : String) (st : Finset String)
    (putOk : Bool) (hcp : 0 < cp) (hpp : 0 < pp)
    (hq : 1 ≤ pyTrunc (mi / (cp * 100))) (hcs : cs ∉ st) :
    (trade_symbol_step mi ⟨cp, pp, some cs, some ps, false, putOk⟩ st).1.order = none ∧
    (trade_symbol_step mi ⟨cp, pp, some cs, some ps, false, putOk⟩ st).1.state = st ∧
    (trade_symbol_step mi ⟨cp, pp, some cs, some ps, false, putOk⟩ st).1.errNotified
      = true ∧
    (trade_symbol_step mi ⟨cp, pp, some cs, some ps, false, putOk⟩ st).2
      = buyStep mi pp (some ps) st putOk ∧
    (∀ us : List UnderlyingInput,
      trade_cycle mi (⟨cp, pp, some cs, some ps, false, putOk⟩ :: us) st =
        (trade_symbol_step mi ⟨cp, pp, some cs, some ps, false, putOk⟩ st ::
          (trade_cycle mi us
            (trade_symbol_step mi ⟨cp, pp, some cs, some ps, false, putOk⟩ st).2.state).1,
         (trade_cycle mi us
           (trade_symbol_step mi ⟨cp, pp, some cs, some ps, false, putOk⟩ st).2.state).2)) := by
  have hno : ¬((⟨cp, pp, some cs, some ps, false, putOk⟩ : UnderlyingInput).callPrice ≤ 0 ∨
      (⟨cp, pp, some cs, some ps, false, putOk⟩ : UnderlyingInput).putPrice ≤ 0) := by
    push_neg
    exact ⟨hcp, hpp⟩
  have hfail : buyStep mi cp (some cs) st false = ⟨none, true, st⟩ := by
    simp only [buyStep, if_pos hcp]
    rw [if_pos ⟨hq, hcs⟩, if_neg (by simp)]
  constructor
  · rw [trade_symbol_step, if_neg hno]
    rw [show (⟨cp, pp, some cs, some ps, false, putOk⟩ : UnderlyingInput).callOk = false from rfl]
    rw [hfail]
  refine ⟨?_, ?_, ?_, ?_⟩
  · rw [trade_symbol_step, if_neg hno]
    rw [show (⟨cp, pp, some cs, some ps, false, putOk⟩ : UnderlyingInput).callOk = false from rfl]
    rw [hfail]
  · rw [trade_symbol_step, if_neg hno]
    rw [show (⟨cp, pp, some cs, some ps, false, putOk⟩ : UnderlyingInput).callOk = false from rfl]
    rw [hfail]
  · rw [trade_symbol_step, if_neg hno]
    rw [show (⟨cp, pp, some cs, some ps, false, putOk⟩ : UnderlyingInput).callOk = false from rfl]
    rw [hfail]
  · intro us
    rfl

/-- Claim C6 witness: call rejected at price 1.50 for symbol "C" with
`max_invest` 200 and a successful put at price 2 for symbol "P". -/
theorem C6_submit_failure_witness :
    (trade_symbol_step 200 ⟨3/2, 2, some "C", some "P", false, true⟩ ∅).1.order
      = none ∧
    (trade_symbol_step 200 ⟨3/2, 2, some "C", some "P", false, true⟩ ∅).1.state = ∅ :=
  ⟨(C6_submit_failure 200 (3/2) 2 "C" "P" ∅ true (by norm_num) (by norm_num)
      (by with_unfolding_all decide) (by simp)).1,
   (C6_submit_failure 200 (3/2) 2 "C" "P" ∅ true (by norm_num) (by norm_num)
      (by with_unfolding_all decide) (by simp)).2.1⟩

/-! ### Claim C9 -/

/-- Claim C9 counterexample: with a call quoted at 0 and a put quoted at 2
(whose quantity would be 1), the code skips the whole underlying — the put
is not submitted and nothing is notified — although the claim says only the
invalid-price contract is skipped. -/
theorem C9_skip_cex :
    1 ≤ pyTrunc ((200:ℚ) / (2 * 100)) ∧
    (buyStep 200 2 (some "P1") ∅ true).order.isSome = true ∧
    (trade_symbol_step 200 ⟨0, 2, some "C1", some "P1", true, true⟩ ∅).2.order
      = none ∧
    (trade_symbol_step 200 ⟨0, 2, some "C1", some "P1", true, true⟩ ∅).1.order
      = none := by
  with_unfolding_all decide

/-- Claim C9 (amended): the submission step is applied once per contract only
when both quoted prices are positive — the call step first, then the put step
against the call-updated set; when either quoted price is not positive, the
entire underlying is skipped silently: neither contract is submitted, nothing
is notified, and the purchased set is unchanged. -/
theorem C9_per_contract_amended (mi : ℚ) (u : UnderlyingInput) (st : Finset String) :
    (u.callPrice ≤ 0 ∨ u.putPrice ≤ 0 →
      trade_symbol_step mi u st = (⟨none, false, st⟩, ⟨none, false, st⟩)) ∧
    (0 < u.callPrice → 0 < u.putPrice →
      trade_symbol_step mi u st =
        (buyStep mi u.callPrice u.callSym st u.callOk,
         buyStep mi u.putPrice u.putSym
           (buyStep mi u.callPrice u.callSym st u.callOk).state u.putOk)) := by
  constructor
  · intro h
    rw [trade_symbol_step, if_pos h]
  · intro h1 h2
    rw [trade_symbol_step, if_neg (by push_neg; exact ⟨h1, h2⟩)]

/-- Claim C9 witness: both prices positive — the two buy steps run in
sequence. -/
theorem C9_per_contract_amended_witness :
    trade_symbol_step 200 ⟨3/2, 2, some "C1", some "P1", true, true⟩ ∅ =
      (buyStep 200 (3/2) (some "C1") ∅ true,
       buyStep 200 2 (some "P1") (buyStep 200 (3/2) (some "C1") ∅ true).state true) :=
  (C9_per_contract_amended 200 ⟨3/2, 2, some "C1", some "P1", true, true⟩ ∅).2
    (by norm_num) (by norm_num)

/-! ### Claim C4 -/

/-- Claim C4: for an open option position, `manage_risk` submits a market
sell of the full held quantity with day time-in-force exactly when
`current_price < entry_price * (1 - STOP_LOSS_PCT)` (strict); at the exact
boundary no sell is submitted; and (for the nonnegative entry prices of real
positions) a position whose current price equals its entry price never
triggers. -/
theorem C4_stop_loss_boundary (pos : Position) (hopt : pos.asset_class = "option") :
    ((manage_risk_position pos).isSome ↔
      pos.current_price < pos.avg_entry_price * (1 - STOP_LOSS_PCT)) ∧
    (pos.current_price < pos.avg_entry_price * (1 - STOP_LOSS_PCT) →
      manage_risk_position pos =
        some ⟨pos.psym, pyTrunc |pos.pqty|, "sell", "market", "day"⟩) ∧
    (pos.current_price = pos.avg_entry_price * (1 - STOP_LOSS_PCT) →
      manage_risk_position pos = none) ∧
    (0 ≤ pos.avg_entry_price → pos.current_price = pos.avg_entry_price →
      manage_risk_position pos = none) := by
  have hne : ¬ pos.asset_class ≠ "option" := by simp [hopt]
  refine ⟨?_, ?_, ?_, ?_⟩
  · constructor
    · intro h
      by_contra hlt
      rw [manage_risk_position, if_neg hne, if_neg hlt] at h
      cases h
    · intro hlt
      rw [manage_risk_position, if_neg hne, if_pos hlt]
      rfl
  · intro hlt
    rw [manage_risk_position, if_neg hne, if_pos hlt]
  · intro heq
    rw [manage_risk_position, if_neg hne, if_neg (by rw [heq]; exact lt_irrefl _)]
  · intro hent heq
    have hub : pos.avg_entry_price * (1 - STOP_LOSS_PCT) ≤ pos.avg_entry_price :=
      mul_le_of_le_one_right hent (by norm_num [STOP_LOSS_PCT])
    rw [manage_risk_position, if_neg hne, if_neg (by rw [heq]; exact not_lt.mpr hub)]

/-- Claim C4 witness: scenario D of the spec — entry 10.00, stop-loss 35%,
threshold 6.50: current price 6.49 triggers a full sell, 6.50 does not, and
a flat position (current = entry = 10) does not. -/
theorem C4_stop_loss_boundary_witness :
    manage_risk_position ⟨"OPT", 2, 10, 649/100, "option"⟩ =
      some ⟨"OPT", pyTrunc |(2:ℚ)|, "sell", "market", "day"⟩ ∧
    manage_risk_position ⟨"OPT", 2, 10, 13/2, "option"⟩ = none ∧
    manage_risk_position ⟨"OPT", 2, 10, 10, "option"⟩ = none :=
  ⟨(C4_stop_loss_boundary ⟨"OPT", 2, 10, 649/100, "option"⟩ rfl).2.1
      (by norm_num [STOP_LOSS_PCT]),
   (C4_stop_loss_boundary ⟨"OPT", 2, 10, 13/2, "option"⟩ rfl).2.2.1
      (by norm_num [STOP_LOSS_PCT]),
   (C4_stop_loss_boundary ⟨"OPT", 2, 10, 10, "option"⟩ rfl).2.2.2
      (by norm_num) rfl⟩

/-! ### Lemmas on the retry loop -/

theorem sleeps_shift (s r : ℕ) :
    (List.range (r + 1)).map (fun j => s * 2 ^ j)
      = s :: (List.range r).map (fun j => s * 2 * 2 ^ j) := by
  rw [List.range_succ_eq_map, List.map_cons, List.map_map]
  refine congrArg₂ List.cons (by norm_num) ?_
  apply List.map_congr_left
  intro j hj
  simp only [Function.comp]
  rw [pow_succ]
  ring

theorem safeAux_all_fail {α : Type} (op : ℕ → Except String α) (a s f : ℕ)
    (h : ∀ i, a ≤ i → i ≤ a + f → (op i).isOk = false) :
    safeAux op a s f =
      (op (a + f), f + 1, (List.range f).map (fun j => s * 2 ^ j)) := by
  induction f generalizing a s with
  | zero => simp [safeAux]
  | succ r ih =>
    have ha : (op a).isOk = false := h a (le_refl a) (by omega)
    rw [safeAux]
    match hop : op a with
    | .ok v => rw [hop] at ha; simp [Except.isOk, Except.toBool] at ha
    | .error msg =>
      have hrec := ih (a + 1) (s * 2) (fun i h1 h2 => h i (by omega) (by omega))
      simp only [hrec, sleeps_shift]
      rw [show a + 1 + r = a + (r + 1) from by omega]

theorem safeAux_first_ok {α : Type} (op : ℕ → Except String α) (a s f k : ℕ) (v : α)
    (hak : a ≤ k) (hkf : k ≤ a + f)
    (hfail : ∀ i, a ≤ i → i < k → (op i).isOk = false)
    (hok : op k = .ok v) :
    safeAux op a s f =
      (.ok v, k - a + 1, (List.range (k - a)).map (fun j => s * 2 ^ j)) := by
  induction f generalizing a s with
  | zero =>
    have hka : k = a := by omega
    subst hka
    simp [safeAux, hok]
  | succ r ih =>
    by_cases hka : k = a
    · subst hka
      rw [safeAux]
      rw [hok]
      simp
    · have ha : (op a).isOk = false := hfail a (le_refl a) (by omega)
      rw [safeAux]
      match hop : op a with
      | .ok w => rw [hop] at ha; simp [Except.isOk, Except.toBool] at ha
      | .error msg =>
        have hrec := ih (a + 1) (s * 2) (by omega) (by omega)
          (fun i h1 h2 => hfail i (by omega) h2)
        simp only [hrec]
        rw [show k - a = (k - (a + 1)) + 1 from by omega, sleeps_shift]

theorem safeAux_count_le {α : Type} (op : ℕ → Except String α) (a s f : ℕ) :
    (safeAux op a s f).2.1 ≤ f + 1 := by
  induction f generalizing a s with
  | zero => simp [safeAux]
  | succ r ih =>
    rw [safeAux]
    match hop : op a with
    | .ok v => simp
    | .error msg =>
      simp only []
      have := ih (a + 1) (s * 2)
      omega

/-! ### Claim C7 -/

/-- Claim C7: for any operation and `max_attempts >= 1`, `safe_api_call`
returns the result of the first successful attempt (having invoked the
operation exactly that many times, with sleeps doubling from the initial
value after each failed non-final attempt); it never invokes the operation
more than `max_attempts` times; and when every attempt fails, it re-raises
the outcome of the final attempt after `max_attempts` invocations. -/
theorem C7_safe_api_call (T : Type) (op : ℕ → Except String T) (m s : ℕ)
    (hm : 1 ≤ m) :
    (∀ k v, 1 ≤ k → k ≤ m → (∀ i, 1 ≤ i → i < k → (op i).isOk = false) →
      op k = .ok v →
      safe_api_call op m s =
        (.ok v, k, (List.range (k - 1)).map (fun j => s * 2 ^ j))) ∧
    (safe_api_call op m s).2.1 ≤ m ∧
    ((∀ i, 1 ≤ i → i ≤ m → (op i).isOk = false) →
      safe_api_call op m s =
        (op m, m, (List.range (m - 1)).map (fun j => s * 2 ^ j))) := by
  refine ⟨?_, ?_, ?_⟩
  · intro k v hk1 hkm hfail hok
    rw [safe_api_call, safeAux_first_ok op 1 s (m - 1) k v hk1 (by omega) hfail hok,
      show k - 1 + 1 = k from by omega]
  · rw [safe_api_call]
    have := safeAux_count_le op 1 s (m - 1)
    omega
  · intro hfail
    rw [safe_api_call, safeAux_all_fail op 1 s (m - 1)
      (fun i h1 h2 => hfail i h1 (by omega)),
      show 1 + (m - 1) = m from by omega, show m - 1 + 1 = m from by omega]

/-- Claim C7 witness: an operation failing on attempts 1 and 2 and
succeeding on attempt 3, run with 3 attempts and initial sleep 3: the result
is returned after 3 invocations with sleeps 3 then 6. -/
theorem C7_safe_api_call_witness :
    safe_api_call (fun i => if i < 3 then Except.error "boom" else Except.ok (7:ℕ)) 3 3 =
      (Except.ok 7, 3, [3, 6]) := by
  have h := (C7_safe_api_call ℕ
    (fun i => if i < 3 then Except.error "boom" else Except.ok (7:ℕ)) 3 3
    (by norm_num)).1 3 7 (by norm_num) (by norm_num)
    (by
      intro i h1 h2
      simp [show i < 3 from h2, Except.isOk, Except.toBool])
    (by simp)
  rw [h]
  rfl

/-! ### Claim C8 -/

/-- Claim C8 (amended): when the market-clock query fails persistently,
`is_market_open` returns false, the notifier is alerted exactly when the
error text contains "401" (other persistent failures are only logged), and
with the gate closed neither the trade cycle nor risk management performs
any action: no orders, unchanged purchased set, no sells. -/
theorem C8_fail_closed_amended (msg : String) (mi : ℚ) (us : List UnderlyingInput)
    (st : Finset String) (ps : List Position) :
    (is_market_open (Except.error msg)).1 = false ∧
    (is_market_open (Except.error msg)).2 = strContains msg "401" ∧
    trade_logic (is_market_open (Except.error msg)).1 mi us st = ([], st) ∧
    manage_risk (is_market_open (Except.error msg)).1 ps = [] := by
  refine ⟨rfl, rfl, ?_, ?_⟩
  · rw [show (is_market_open (Except.error msg)).1 = false from rfl]
    rw [trade_logic]
    rfl
  · rw [show (is_market_open (Except.error msg)).1 = false from rfl]
    rw [manage_risk]
    rfl

/-- Claim C8 counterexample: a persistent failure whose text does not
contain "401" (a connection timeout) makes `is_market_open` return false
without reporting anything to the notifier, contradicting the claim that
the failure is reported. -/
theorem C8_notify_cex :
    (is_market_open (Except.error "connection timeout")).1 = false ∧
    (is_market_open (Except.error "connection timeout")).2 = false := by
  decide

end OptionsTrader
